import Mathlib

/-!
Verification of the atropos remediation service against its specification.

The Go sources are shallowly embedded:
* `float64` thresholds and entropy values become `ℚ` (only order comparisons occur);
* `time.Time` becomes `ℕ` (nanoseconds since the Unix epoch) and `time.Duration`
  becomes `ℤ` (nanoseconds), matching Go's int64 representation;
* Go maps become association lists; `sort.Slice` becomes `List.insertionSort`
  (Go's sort is unspecified on ties; a stable sort is one admissible outcome);
* the external world reached through a cutter backend (container runtime,
  hypervisor CLI, remote shell) is an environment parameter giving each
  backend call's outcome; everything else is translated from the source.
-/

namespace Atropos

/-- Nanoseconds per second: Go `time.Time` counts nanoseconds, `Unix()` divides. -/
def nsPerSecond : ℕ := 1000000000

/-- Nanoseconds per minute, as a signed duration (`time.Duration(w) * time.Minute`). -/
def nsPerMinute : ℤ := 60000000000

/-- `time.Time.Unix()`: whole seconds since the epoch (floor division, exact for
nonnegative times, which is all the model uses). -/
def unixSeconds (t : ℕ) : ℕ := t / nsPerSecond

/-! ## Policy model (policy package) -/

/-- `policy.Strategy`. -/
structure Strategy where
  threshold : ℚ
  action : String
  command : String := ""
  critical : Bool := false
  snapshotName : String := ""
  escalateTo : String := ""
  onFailure : String := ""
deriving Repr, DecidableEq

/-- `policy.TimeWindow`; `stop` models the Go field `End`. -/
structure TimeWindow where
  start : String
  stop : String
deriving Repr, DecidableEq

/-- `policy.RateLimit` (`max_cuts`, `window_minutes`). -/
structure RateLimit where
  maxCuts : Int
  window : Int
deriving Repr, DecidableEq

/-- `policy.NodePolicy`. -/
structure NodePolicy where
  host : String := ""
  port : Int := 0
  user : String := ""
  strategies : List Strategy
  timeWindows : List TimeWindow := []
  rateLimit : Option RateLimit := none
  name : String := ""
deriving Repr, DecidableEq

/-- Descending-threshold ordering of strategies: `sort.Slice` with
`Strategies[a].Threshold > Strategies[b].Threshold` orders by it. -/
def strategyGE (a b : Strategy) : Prop := b.threshold ≤ a.threshold

instance : DecidableRel strategyGE :=
  fun a b => inferInstanceAs (Decidable (b.threshold ≤ a.threshold))

instance : IsTotal Strategy strategyGE := ⟨fun a b => le_total b.threshold a.threshold⟩

instance : IsTrans Strategy strategyGE := ⟨fun _ _ _ hab hbc => le_trans hbc hab⟩

/-- The strategy sort of `buildIndex`: descending thresholds. Go's `sort.Slice`
leaves tie order unspecified; a stable sort realises one admissible outcome. -/
def buildIndexStrategies (l : List Strategy) : List Strategy :=
  l.insertionSort strategyGE

/-- The per-node part of `RemediationPolicy.buildIndex`: record the node's own
name into it and sort its strategies by descending threshold. -/
def buildIndexNode (name : String) (n : NodePolicy) : NodePolicy :=
  { n with name := name, strategies := buildIndexStrategies n.strategies }

/-- `RemediationPolicy.buildIndex`: build the name → node index. -/
def buildIndex (nodes : List (String × NodePolicy)) : List (String × NodePolicy) :=
  nodes.map (fun p => (p.1, buildIndexNode p.1 p.2))

/-- `RemediationPolicy.GetNode`: index lookup. -/
def GetNode (idx : List (String × NodePolicy)) (name : String) : Option NodePolicy :=
  idx.lookup name

/-- `NodePolicy.SelectStrategy`: first strategy with `entropy >= threshold`. -/
def SelectStrategy (n : NodePolicy) (entropy : ℚ) : Option Strategy :=
  n.strategies.find? (fun s => decide (s.threshold ≤ entropy))

/-- `NodePolicy.SelectStrategyByAction`: first strategy with the given action. -/
def SelectStrategyByAction (n : NodePolicy) (action : String) : Option Strategy :=
  n.strategies.find? (fun s => s.action == action)

/-- `NodePolicy.GetEscalationStrategy`: first strategy with
`threshold > currentThreshold`. -/
def GetEscalationStrategy (n : NodePolicy) (currentThreshold : ℚ) : Option Strategy :=
  n.strategies.find? (fun s => decide (currentThreshold < s.threshold))

/-! ## Cut results, journal records, notification events -/

/-- `cutter.CutResult`; `error` is `none` where Go's error is nil. -/
structure CutResult where
  target : String := ""
  action : String := ""
  success : Bool := false
  error : Option String := none
  latencyMs : Int := 0
deriving Repr, DecidableEq

/-- `history.StrategyInfo`. -/
structure StrategyInfo where
  threshold : ℚ
  action : String
  critical : Bool
  snapshotName : String
  command : String
deriving Repr, DecidableEq

/-- `history.CutRecord`. -/
structure CutRecord where
  id : String
  node : String
  entropy : ℚ
  action : String
  success : Bool
  error : String
  latencyMs : Int
  timestamp : ℕ
  policyVersion : String
  strategy : StrategyInfo
deriving Repr, DecidableEq

/-- `notifications.CutEvent`. -/
structure CutEvent where
  id : String
  node : String
  action : String
  success : Bool
  entropy : ℚ
  latencyMs : Int
  timestamp : ℕ
  error : String := ""
deriving Repr, DecidableEq

/-! ## Journal ids -/

/-- Little-endian decimal digits of `n`, with fuel; 20 digits cover every
int64, which is all `fmt.Sprintf("%d", ·)` is given here. -/
def decimalDigits : ℕ → ℕ → List ℕ
  | 0, _ => []
  | fuel + 1, n => if n < 10 then [n] else n % 10 :: decimalDigits fuel (n / 10)

/-- The decimal rendering `fmt.Sprintf("%d", n)` of a nonnegative integer
below `10^20`. -/
def natChars (n : ℕ) : List Char := ((decimalDigits 20 n).reverse.map Nat.digitChar)

/-- The journal id `fmt.Sprintf("cut_%d_%s", timestamp.Unix(), node)` built by
`logCut`. -/
def cutID (sec : ℕ) (node : String) : String :=
  ⟨"cut_".data ++ natChars sec ++ '_' :: node.data⟩

/-- The journal file name `fmt.Sprintf("%s.json.gz", record.ID)` used by
`HistoryManager.SaveCut`. -/
def saveFileName (id : String) : String := ⟨id.data ++ ".json.gz".data⟩

/-! ## Rate limiter -/

/-- `engine.rateLimitEntry`. `checkRateLimit` never reads the stored `limit`
back (it uses the policy's descriptor); the field is kept for fidelity. -/
structure RateLimitEntry where
  count : Int
  windowStart : ℕ
  limit : Option RateLimit
deriving Repr, DecidableEq

/-- The rate limiter's per-node map `RateLimiter.nodeCounts`. -/
abbrev RLState := List (String × RateLimitEntry)

/-- Go map assignment `m[k] = v`: replace or append. -/
def rlSet (m : RLState) (k : String) (v : RateLimitEntry) : RLState :=
  match m with
  | [] => [(k, v)]
  | (k', v') :: t => if k = k' then (k, v) :: t else (k', v') :: rlSet t k v

/-- What `RateLimiter.checkRateLimit` returns: admitted?, a duration, error text. -/
structure RateLimitVerdict where
  allowed : Bool
  wait : Int
  error : Option String := none
deriving Repr, DecidableEq

/-- The denial text `fmt.Errorf("rate limit exceeded: %d cuts per %d minutes", ...)`. -/
def rateLimitMsg (maxCuts window : Int) : String :=
  "rate limit exceeded: " ++ toString maxCuts ++ " cuts per " ++ toString window ++ " minutes"

/-- `RateLimiter.checkRateLimit` at instant `now`, returning the verdict and
the updated map. Its own mutex makes the Go body one atomic step. -/
def checkRateLimit (rl : RLState) (node : String) (rateLimit : Option RateLimit)
    (now : ℕ) : RateLimitVerdict × RLState :=
  match rateLimit with
  | none => (⟨true, 0, none⟩, rl)
  | some lim =>
      if lim.maxCuts = 0 then (⟨true, 0, none⟩, rl)
      else
        let windowDuration : Int := lim.window * nsPerMinute
        match rl.lookup node with
        | none => (⟨true, windowDuration, none⟩, rlSet rl node ⟨1, now, some lim⟩)
        | some entry =>
            if (now : ℤ) - (entry.windowStart : ℤ) > windowDuration then
              (⟨true, windowDuration, none⟩, rlSet rl node ⟨1, now, some lim⟩)
            else if entry.count ≥ lim.maxCuts then
              (⟨false, (entry.windowStart : ℤ) + windowDuration - (now : ℤ),
                some (rateLimitMsg lim.maxCuts lim.window)⟩, rl)
            else
              (⟨true, windowDuration, none⟩,
                rlSet rl node ⟨entry.count + 1, entry.windowStart, entry.limit⟩)

/-! ## Execution engine -/

/-- Go's `<=` on strings: byte-wise lexicographic comparison. On the ASCII
"HH:MM" clock strings compared here, bytes coincide with characters. -/
def charListLe : List Char → List Char → Bool
  | [], _ => true
  | _ :: _, [] => false
  | c :: cs, d :: ds => if c = d then charListLe cs ds else decide (c.toNat < d.toNat)

/-- Go string comparison `a <= b`. -/
def strLeGo (a b : String) : Bool := charListLe a.data b.data

/-- `Executor.checkTimeWindows`: `none` when admitted. `clock` is
`time.Now().Format("15:04")`; the window test is the inclusive string
comparison `currentTime >= w.Start && currentTime <= w.End`. -/
def checkTimeWindows (n : NodePolicy) (clock : String) : Option String :=
  if n.timeWindows = [] then none
  else if n.timeWindows.any (fun w => strLeGo w.start clock && strLeGo clock w.stop)
  then none
  else some ("outside allowed time windows for node " ++ n.name)

/-- `strings.HasPrefix`. -/
def hasPref (p s : String) : Bool := p.data.isPrefixOf s.data

/-- `Registry.FindCutter` succeeds iff one of the three built-in cutters claims
the action: `DockerCutter`, `NetworkCutter` and `VBoxCutter` claim the
`docker_`, `ssh_` and `vbox_` name spaces respectively. -/
def findCutter (action : String) : Bool :=
  hasPref "docker_" action || hasPref "ssh_" action || hasPref "vbox_" action

/-- The engine's environment: backend outcomes (the external container
runtime, hypervisor CLI and remote shell reached through `Cutter.Execute`,
keyed by action and target — the parameter map passed along is a function of
strategy and node and is absorbed into this abstraction), measured latencies,
and the presence of the optional collaborators. -/
structure Env where
  execCut : String → String → Option String
  execLatency : String → String → Int
  historyEnabled : Bool := true
  notifEnabled : Bool := true
  policyVersion : String := ""

/-- `policy.Strategy{}` — the zero value logged on the unknown-node and
time-window denial paths. -/
def emptyStrategy : Strategy := { threshold := 0, action := "" }

/-- `Executor.logCut`: the journal writes and notification events one call
performs — `([], [])` when the engine has no history manager (early return),
otherwise one record and, when a notification manager is present, one event.
The `latency` parameter exists in the source, but the record takes its latency
from `result`. -/
def logCut (env : Env) (now : ℕ) (node : String) (entropy : ℚ) (strategy : Strategy)
    (result : CutResult) (latency : Int) : List CutRecord × List CutEvent :=
  if env.historyEnabled then
    let record : CutRecord :=
      { id := cutID (unixSeconds now) node
        node := node
        entropy := entropy
        action := result.action
        success := result.success
        error := (result.error).getD ""
        latencyMs := result.latencyMs
        timestamp := now
        policyVersion := env.policyVersion
        strategy := ⟨strategy.threshold, strategy.action, strategy.critical,
          strategy.snapshotName, strategy.command⟩ }
    ([record],
      if env.notifEnabled then
        [{ id := record.id, node := node, action := record.action,
           success := record.success, entropy := entropy,
           latencyMs := record.latencyMs, timestamp := record.timestamp,
           error := (result.error).getD "" }]
      else [])
  else ([], [])

/-- `Executor.executeStrategy`: resolve the cutter (or fail with
"no cutter for action"), run it under the 30s context, journal the outcome.
The node policy only feeds the backend parameter map, absorbed into `env`. -/
def executeStrategy (env : Env) (now : ℕ) (node : String) (nodePolicy : NodePolicy)
    (strategy : Strategy) : CutResult × List CutRecord × List CutEvent :=
  if findCutter strategy.action then
    let latency := env.execLatency strategy.action node
    match env.execCut strategy.action node with
    | some err =>
        let result : CutResult := ⟨node, strategy.action, false, some err, latency⟩
        (result, logCut env now node strategy.threshold strategy result latency)
    | none =>
        let result : CutResult := ⟨node, strategy.action, true, none, latency⟩
        (result, logCut env now node strategy.threshold strategy result latency)
  else
    let err := "no cutter for action: " ++ strategy.action
    let result : CutResult := ⟨node, strategy.action, false, some err, 0⟩
    (result, logCut env now node 0 strategy result 0)

/-- Which call site of `executeStrategy` inside `ExecuteCut` ran a strategy. -/
inductive Phase
  | primary
  | fallback
  | escalation
deriving Repr, DecidableEq

/-- Everything one `ExecuteCut` admission produces: the returned result, the
rate limiter's map afterwards, the journal writes, the notification events,
and which strategies were executed at which call site. -/
structure ExecOutcome where
  result : CutResult
  rl : RLState
  records : List CutRecord
  events : List CutEvent
  trace : List (Phase × Strategy)
deriving Repr, DecidableEq

/-- `Executor.ExecuteCut`. `pol` is the node index built by `buildIndex`,
`rl` the rate limiter's map, `now` the admission instant, `clock` its
"15:04" rendering. The engine mutex serialises admissions, so one admission
is one pure step. -/
def ExecuteCut (env : Env) (pol : List (String × NodePolicy)) (rl : RLState)
    (now : ℕ) (clock : String) (node : String) (entropy : ℚ) : ExecOutcome :=
  match GetNode pol node with
  | none =>
      let result : CutResult :=
        { target := node, success := false, error := some ("unknown node: " ++ node) }
      let w := logCut env now node entropy emptyStrategy result 0
      ⟨result, rl, w.1, w.2, []⟩
  | some nodePolicy =>
      match checkTimeWindows nodePolicy clock with
      | some err =>
          let result : CutResult := { target := node, success := false, error := some err }
          let w := logCut env now node entropy emptyStrategy result 0
          ⟨result, rl, w.1, w.2, []⟩
      | none =>
          match SelectStrategy nodePolicy entropy with
          | none =>
              let result : CutResult := { target := node, action := "none", success := true }
              let w := logCut env now node entropy
                { threshold := 0, action := "none" } result 0
              ⟨result, rl, w.1, w.2, []⟩
          | some strategy =>
              let vr := checkRateLimit rl node nodePolicy.rateLimit now
              if vr.1.allowed then
                let er := executeStrategy env now node nodePolicy strategy
                if er.1.success then ⟨er.1, vr.2, er.2.1, er.2.2, [(.primary, strategy)]⟩
                else
                  match (if strategy.onFailure ≠ "" then
                      SelectStrategyByAction nodePolicy strategy.onFailure
                    else none) with
                  | some fallbackStrategy =>
                      let er₂ := executeStrategy env now node nodePolicy fallbackStrategy
                      ⟨er₂.1, vr.2, er.2.1 ++ er₂.2.1, er.2.2 ++ er₂.2.2,
                        [(.primary, strategy), (.fallback, fallbackStrategy)]⟩
                  | none =>
                      if strategy.critical then
                        match GetEscalationStrategy nodePolicy strategy.threshold with
                        | some escalated =>
                            let er₂ := executeStrategy env now node nodePolicy escalated
                            ⟨er₂.1, vr.2, er.2.1 ++ er₂.2.1, er.2.2 ++ er₂.2.2,
                              [(.primary, strategy), (.escalation, escalated)]⟩
                        | none => ⟨er.1, vr.2, er.2.1, er.2.2, [(.primary, strategy)]⟩
                      else ⟨er.1, vr.2, er.2.1, er.2.2, [(.primary, strategy)]⟩
              else
                let result : CutResult :=
                  { target := node, success := false, error := vr.1.error }
                let w := logCut env now node entropy strategy result 0
                ⟨result, vr.2, w.1, w.2, []⟩

/-! ## Concrete fixtures used by witnesses and counterexamples -/

/-- An environment whose backend calls all fail. -/
def envFail : Env := { execCut := fun _ _ => some "exit status 1", execLatency := fun _ _ => 5 }

/-- An environment whose backend calls all succeed. -/
def envOk : Env := { execCut := fun _ _ => none, execLatency := fun _ _ => 5 }

/-- A primary strategy with an `on_failure` fallback reference. -/
def sPrime : Strategy :=
  { threshold := mkRat 17 20, action := "vbox_revert_snapshot",
    snapshotName := "LAST_ORDERED_STATE", onFailure := "ssh_isolate_network" }

/-- The fallback sibling named by `sPrime.onFailure`. -/
def sFall : Strategy :=
  { threshold := mkRat 4 5, action := "ssh_isolate_network",
    command := "systemctl stop wireguard@wg0" }

def npAthena : NodePolicy := { strategies := [sPrime, sFall] }

def polAthena : List (String × NodePolicy) := buildIndex [("athena", npAthena)]

/-- A critical strategy without fallback, with a higher-threshold sibling. -/
def sCrit : Strategy := { threshold := mkRat 7 10, action := "docker_pause_all", critical := true }

def sHigh : Strategy := { threshold := mkRat 9 10, action := "vbox_poweroff" }

def npZeus : NodePolicy := { strategies := [sCrit, sHigh] }

def polZeus : List (String × NodePolicy) := buildIndex [("zeus", npZeus)]

/-- A concrete admission instant (nanoseconds within second 1700000005). -/
def tEx : ℕ := 1700000005500000000

/-- A failed primary followed by its fallback, in one admission. -/
def runFallback : ExecOutcome :=
  ExecuteCut envFail polAthena [] tEx "12:00" "athena" (mkRat 9 10)

/-- A failed critical primary followed by its escalation, in one admission. -/
def runEscalation : ExecOutcome :=
  ExecuteCut envFail polZeus [] tEx "12:00" "zeus" (mkRat 3 4)

/-! ## Rate-limiter runs -/

/-- A sequence of admission checks for one node against one descriptor: the
serialised calls `checkRateLimit` sees, with each step's verdict and the map
it leaves behind. -/
def rlRun (node : String) (lim : Option RateLimit) : RLState → List ℕ → List (Bool × RLState)
  | _, [] => []
  | rl, t :: ts =>
      ((checkRateLimit rl node lim t).1.allowed, (checkRateLimit rl node lim t).2)
        :: rlRun node lim (checkRateLimit rl node lim t).2 ts

/-- How many steps of a run were admitted into the window that started at `w`:
admitted steps whose resulting entry for the node carries `windowStart = w`. -/
def admittedInWindow (node : String) (w : ℕ) (steps : List (Bool × RLState)) : ℕ :=
  (steps.filter (fun st =>
    st.1 && decide ((st.2.lookup node).map RateLimitEntry.windowStart = some w))).length

/-- Proof device: how many more admissions window `w` can still absorb from a
given limiter state (`M` once the window is over or not yet opened, `M − count`
while it is the current window, `0` once it lies in the past). -/
def remainingCap (node : String) (M : ℤ) (w : ℕ) (rl : RLState) : ℤ :=
  match rl.lookup node with
  | none => M
  | some entry =>
      if entry.windowStart = w then M - entry.count
      else if w ≤ entry.windowStart then 0 else M

/-! ## Webhook HMAC verification (api package) -/

/-- One hex digit's value (`encoding/hex`): `0`-`9`, `a`-`f`, `A`-`F`. -/
def hexDigitVal (c : Char) : Option ℕ :=
  let n := c.toNat
  if 48 ≤ n ∧ n ≤ 57 then some (n - 48)
  else if 97 ≤ n ∧ n ≤ 102 then some (n - 87)
  else if 65 ≤ n ∧ n ≤ 70 then some (n - 55)
  else none

/-- `hex.DecodeString`: hex-digit pairs to bytes; an odd length or an invalid
digit is an error (Go reports it after the decoded portion; the caller only
looks at the error, so `Option` captures it). -/
def hexDecode : List Char → Option (List ℕ)
  | [] => some []
  | [_] => none
  | c₁ :: c₂ :: rest =>
      match hexDigitVal c₁, hexDigitVal c₂, hexDecode rest with
      | some d₁, some d₂, some bs => some ((16 * d₁ + d₂) :: bs)
      | _, _, _ => none

/-- `strings.SplitN(s, "=", 2)`: split at the first `=`; `none` when no `=`
occurs (Go then returns one part and the length-2 check fails). -/
def splitAtEq : List Char → Option (List Char × List Char)
  | [] => none
  | c :: cs =>
      if c = '=' then some ([], cs)
      else
        match splitAtEq cs with
        | some (p, q) => some (c :: p, q)
        | none => none

/-- `WebhookHandler.verifySignature`. `hmacSha256 secret payload` abstracts
`crypto/hmac` over SHA-256 — a pure function of key and message; `hmac.Equal`
is constant-time byte equality. An empty configured secret accepts
everything. -/
def verifySignature (hmacSha256 : List ℕ → List ℕ → List ℕ)
    (secret payload : List ℕ) (signature : String) : Bool :=
  if secret = [] then true
  else
    match splitAtEq signature.data with
    | none => false
    | some (p₀, p₁) =>
        if p₀ = "sha256".data then
          match hexDecode p₁ with
          | none => false
          | some expectedMAC => decide (hmacSha256 secret payload = expectedMAC)
        else false

/-! ## Trend analysis (trends package) -/

/-- Ascending-time ordering used by `calculateMTTR`'s `sort.Slice`
(`Timestamp.Before`). -/
def recordTimeLE (a b : CutRecord) : Prop := a.timestamp ≤ b.timestamp

instance : DecidableRel recordTimeLE :=
  fun a b => inferInstanceAs (Decidable (a.timestamp ≤ b.timestamp))

instance : IsTotal CutRecord recordTimeLE := ⟨fun a b => le_total a.timestamp b.timestamp⟩

instance : IsTrans CutRecord recordTimeLE := ⟨fun _ _ _ => le_trans⟩

/-- The interval loop of `calculateMTTR`: total interval and pair count over
adjacent same-node entries (`sorted[i]` vs `sorted[i-1]`). The subtraction is
applied to an ascending-sorted list, where it never truncates. -/
def mttrLoop : List CutRecord → ℕ × ℕ
  | [] => (0, 0)
  | [_] => (0, 0)
  | a :: b :: rest =>
      let t := mttrLoop (b :: rest)
      if a.node == b.node then (t.1 + (b.timestamp - a.timestamp), t.2 + 1) else t

/-- `Analyzer.calculateMTTR`: over successful cuts sorted by time, average the
gaps between adjacent entries that share a node (integer division of
`time.Duration`). -/
def calculateMTTR (cuts : List CutRecord) : Option ℕ :=
  let successfulCuts := cuts.filter (·.success)
  if successfulCuts.length < 2 then none
  else
    let t := mttrLoop (successfulCuts.insertionSort recordTimeLE)
    if t.2 = 0 then none else some (t.1 / t.2)

/-- Declarative form of the same computation, for the amended claim: gaps of
the adjacent same-node pairs of the globally time-sorted successful list. -/
def adjacentSameNodeMTTR (cuts : List CutRecord) : Option ℕ :=
  let successfulCuts := cuts.filter (·.success)
  if successfulCuts.length < 2 then none
  else
    let s := successfulCuts.insertionSort recordTimeLE
    let gaps := ((s.zip s.tail).filter (fun p => p.1.node == p.2.node)).map
      (fun p => p.2.timestamp - p.1.timestamp)
    if gaps.length = 0 then none else some (gaps.sum / gaps.length)

/-- Modelled from the claim's words, for comparison with the source: group
successful cuts by node, take each node's consecutive (time-sorted)
inter-arrival gaps, pool all gaps and average them. -/
def groupedMTTR (cuts : List CutRecord) : Option ℕ :=
  let successfulCuts := cuts.filter (·.success)
  if successfulCuts.length < 2 then none
  else
    let gaps := ((successfulCuts.map (·.node)).dedup.map (fun n =>
      let ns := (successfulCuts.filter (fun r => r.node == n)).insertionSort recordTimeLE
      (ns.zip ns.tail).map (fun p => p.2.timestamp - p.1.timestamp))).flatten
    if gaps.length = 0 then none else some (gaps.sum / gaps.length)

/-! ## Correlation (correlation package) -/

/-- `correlation.ClothoFinding`; the RFC3339 `Timestamp` string is modelled
post-parse: `none` where `time.Parse` fails. -/
structure ClothoFinding where
  controlID : String := ""
  controlTitle : String := ""
  collectorType : String := ""
  node : String := ""
  passed : Bool := false
  command : String := ""
  timestamp : Option ℕ := none
deriving Repr, DecidableEq

/-- `correlation.CutReference`. -/
structure CutReference where
  id : String
  timestamp : ℕ
  action : String
  success : Bool
deriving Repr, DecidableEq

/-- `correlation.Correlation`. -/
structure Correlation where
  finding : ClothoFinding
  cut : CutReference
  timeDelta : ℤ
  resolved : Bool
deriving Repr, DecidableEq

/-- `correlation.CorrelationResult`. -/
structure CorrelationResult where
  findings : List ClothoFinding
  cuts : List CutReference
  remediated : List Correlation
  unresolved : List ClothoFinding
  effectiveness : ℚ
deriving Repr, DecidableEq

/-- The matching loop of `Correlate` for one finding time `t`: the first cut
of the window list whose delta is in `[0, window]`. -/
def correlateMatch (cutsInWindow : List CutReference) (t : ℕ) (window : ℤ) :
    Option CutReference :=
  cutsInWindow.find? (fun cut =>
    decide (0 ≤ (cut.timestamp : ℤ) - t ∧ (cut.timestamp : ℤ) - t ≤ window))

/-- `Correlator.Correlate`. `findings` are all findings of the imported
reports in iteration order; `cutRefs` the correlator's cut references. -/
def Correlate (findings : List ClothoFinding) (cutRefs : List CutReference)
    (node : String) (timeWindow : ℤ) (now : ℕ) : CorrelationResult :=
  let failedFindings := findings.filter (fun f => f.node == node && !f.passed)
  let cutsInWindow := cutRefs.filter (fun c => decide ((now : ℤ) - timeWindow < c.timestamp))
  let resolved := failedFindings.filterMap (fun f =>
    match f.timestamp with
    | none => none
    | some t =>
        match correlateMatch cutsInWindow t timeWindow with
        | none => none
        | some cut => some ⟨f, cut, (cut.timestamp : ℤ) - t, cut.success⟩)
  let unresolved := failedFindings.filter (fun f => !(resolved.any (fun corr =>
    corr.finding.controlID == f.controlID
      && corr.finding.collectorType == f.collectorType
      && corr.finding.timestamp == f.timestamp)))
  { findings := failedFindings, cuts := cutsInWindow, remediated := resolved,
    unresolved := unresolved,
    effectiveness :=
      if 0 < failedFindings.length then
        (resolved.length : ℚ) / (failedFindings.length : ℚ) * 100
      else 0 }

/-- Descending-time ordering of `HistoryManager.ListCuts`
(`Timestamp.After`). -/
def recordTimeGE (a b : CutRecord) : Prop := b.timestamp ≤ a.timestamp

instance : DecidableRel recordTimeGE :=
  fun a b => inferInstanceAs (Decidable (b.timestamp ≤ a.timestamp))

instance : IsTotal CutRecord recordTimeGE := ⟨fun a b => le_total b.timestamp a.timestamp⟩

instance : IsTrans CutRecord recordTimeGE := ⟨fun _ _ _ hab hbc => le_trans hbc hab⟩

/-- `HistoryManager.ListCuts` with limit 0: every journal record, sorted
newest first. -/
def ListCuts (records : List CutRecord) : List CutRecord :=
  records.insertionSort recordTimeGE

/-- `HistoryManager.ListCutsByNode` with limit 0. -/
def ListCutsByNode (records : List CutRecord) (node : String) : List CutRecord :=
  (ListCuts records).filter (fun r => r.node == node)

/-- `Routes.getCorrelation`: build cut references from the node's journal
records (newest first, via `ListCutsByNode`) and correlate. The handler's
importer is created per request; `findings` stands for the findings its
imported reports hold. -/
def getCorrelation (records : List CutRecord) (findings : List ClothoFinding)
    (node : String) (timeWindow : ℤ) (now : ℕ) : CorrelationResult :=
  Correlate findings
    ((ListCutsByNode records node).map (fun r => ⟨r.id, r.timestamp, r.action, r.success⟩))
    node timeWindow now

/-! ## Fixtures for the trend and correlation claims -/

/-- A successful journal record with the fields the analytics read. -/
def trendRec (node : String) (ts : ℕ) (ok : Bool) (id : String) : CutRecord :=
  { id := id, node := node, entropy := 0, action := "", success := ok, error := "",
    latencyMs := 0, timestamp := ts, policyVersion := "",
    strategy := ⟨0, "", false, "", ""⟩ }

/-- Interleaved successful cuts on two nodes: `a` at 0, `b` at 5, `a` at 7,
`a` at 20. -/
def mttrEx : List CutRecord :=
  [trendRec "a" 0 true "r0", trendRec "b" 5 true "r1",
   trendRec "a" 7 true "r2", trendRec "a" 20 true "r3"]

/-- A failed finding on `athena` at time 0. -/
def findingEx : ClothoFinding :=
  { controlID := "V-1", collectorType := "ssh", node := "athena", passed := false,
    timestamp := some 0 }

/-- Two journal cuts for `athena`: a successful one at 10, a failed one
at 20. -/
def corrRecords : List CutRecord :=
  [trendRec "athena" 10 true "cutA", trendRec "athena" 20 false "cutB"]

/-! # Theorems -/

/-! ### Generic `find?` facts -/

theorem find?_split {α : Type} {p : α → Bool} :
    ∀ {l : List α} {a : α}, l.find? p = some a →
      ∃ l₁ l₂, l = l₁ ++ a :: l₂ ∧ (∀ x ∈ l₁, p x = false) ∧ p a = true := by
  intro l
  induction l with
  | nil => intro a h; simp [List.find?] at h
  | cons b t ih =>
      intro a h
      by_cases hb : p b
      · rw [List.find?_cons_of_pos _ hb] at h
        refine ⟨[], t, ?_, ?_, ?_⟩ <;> simp_all
      · rw [List.find?_cons_of_neg _ (by simpa using hb)] at h
        obtain ⟨l₁, l₂, rfl, h₁, h₂⟩ := ih h
        exact ⟨b :: l₁, l₂, rfl, by
          intro x hx
          rcases List.mem_cons.mp hx with rfl | hx
          · simpa using hb
          · exact h₁ x hx, h₂⟩

/-- In a list sorted by `r`, the first element found by `find?` is `r`-before
every other element satisfying the predicate. -/
theorem find?_sorted_best {α : Type} {r : α → α → Prop} {p : α → Bool}
    {l : List α} {a : α} (hs : l.Pairwise r) (h : l.find? p = some a) :
    ∀ b ∈ l, p b = true → b = a ∨ r a b := by
  obtain ⟨l₁, l₂, rfl, hno, _⟩ := find?_split h
  intro b hb hpb
  rcases List.mem_append.mp hb with hb₁ | hb₂
  · exact absurd hpb (by simp [hno b hb₁])
  · rcases List.mem_cons.mp hb₂ with rfl | hb₂
    · exact Or.inl rfl
    · have hcons := (List.pairwise_append.mp hs).2.1
      exact Or.inr ((List.pairwise_cons.mp hcons).1 b hb₂)

/-- Strategies sorted by `buildIndex` are pairwise descending in threshold. -/
theorem buildIndexStrategies_sorted (l : List Strategy) :
    (buildIndexStrategies l).Pairwise (fun a b => b.threshold ≤ a.threshold) :=
  List.sorted_insertionSort strategyGE l

/-- Membership transfers between a node's declared strategies and the sorted
index. -/
theorem mem_buildIndexStrategies {l : List Strategy} {s : Strategy} :
    s ∈ buildIndexStrategies l ↔ s ∈ l := List.mem_insertionSort strategyGE

/-- C4: after index build, the strategy selected for entropy `e` (when one is
returned) satisfies `threshold ≤ e`, no declared strategy of the node with a
strictly higher threshold than the selected one also satisfies `threshold ≤ e`,
and when `e` is below all declared thresholds no strategy is returned. -/
theorem selectStrategy_applicable_and_maximal (n : NodePolicy) (name : String) (e : ℚ) :
    (∀ s, SelectStrategy (buildIndexNode name n) e = some s →
      s.threshold ≤ e ∧ ∀ t ∈ n.strategies, s.threshold < t.threshold → e < t.threshold)
    ∧ ((∀ t ∈ n.strategies, e < t.threshold) →
      SelectStrategy (buildIndexNode name n) e = none) := by
  constructor
  · intro s hs
    have hfind : (buildIndexStrategies n.strategies).find?
        (fun s => decide (s.threshold ≤ e)) = some s := hs
    have hsel : s.threshold ≤ e := by
      have := List.find?_some hfind
      simpa using this
    refine ⟨hsel, ?_⟩
    intro t ht hlt
    by_contra hc
    push_neg at hc
    have hbest := find?_sorted_best (buildIndexStrategies_sorted n.strategies) hfind t
      (mem_buildIndexStrategies.mpr ht) (by simpa using hc)
    rcases hbest with rfl | hle
    · exact lt_irrefl _ hlt
    · exact absurd hlt (not_lt.mpr hle)
  · intro hall
    have : ∀ t ∈ buildIndexStrategies n.strategies, ¬ (decide (t.threshold ≤ e) = true) := by
      intro t ht
      have := hall t (mem_buildIndexStrategies.mp ht)
      simpa using not_le.mpr this
    exact List.find?_eq_none.mpr this

/-- C3: after index build (strategies sorted descending by threshold), the
escalation query for current threshold `t` returns a strategy whenever some
declared strategy of the node has threshold > `t`, the returned strategy is
the first in the sorted order whose threshold is strictly greater than `t`
(every strategy before it in that order has threshold ≤ `t`), and no strategy
is returned when no declared strategy has threshold > `t`. -/
theorem escalation_first_strictly_above (n : NodePolicy) (name : String) (t : ℚ) :
    (∀ s, GetEscalationStrategy (buildIndexNode name n) t = some s →
      t < s.threshold ∧ s ∈ n.strategies ∧
      ∃ l₁ l₂, (buildIndexNode name n).strategies = l₁ ++ s :: l₂ ∧
        ∀ x ∈ l₁, x.threshold ≤ t)
    ∧ ((∃ x ∈ n.strategies, t < x.threshold) →
      ∃ s, GetEscalationStrategy (buildIndexNode name n) t = some s)
    ∧ ((∀ x ∈ n.strategies, x.threshold ≤ t) →
      GetEscalationStrategy (buildIndexNode name n) t = none) := by
  refine ⟨?_, ?_, ?_⟩
  · intro s hs
    have hfind : (buildIndexStrategies n.strategies).find?
        (fun s => decide (t < s.threshold)) = some s := hs
    have hmem : s ∈ n.strategies :=
      mem_buildIndexStrategies.mp (List.mem_of_find?_eq_some hfind)
    have hgt : t < s.threshold := by simpa using List.find?_some hfind
    obtain ⟨l₁, l₂, heq, hno, _⟩ := find?_split hfind
    exact ⟨hgt, hmem, l₁, l₂, heq, fun x hx => by simpa using hno x hx⟩
  · rintro ⟨x, hx, hgt⟩
    have hsome : ((buildIndexStrategies n.strategies).find?
        (fun s => decide (t < s.threshold))).isSome :=
      List.find?_isSome.mpr ⟨x, mem_buildIndexStrategies.mpr hx, by simpa using hgt⟩
    obtain ⟨s, hs⟩ := Option.isSome_iff_exists.mp hsome
    exact ⟨s, hs⟩
  · intro hall
    refine List.find?_eq_none.mpr ?_
    intro x hx
    have := hall x (mem_buildIndexStrategies.mp hx)
    simpa using not_lt.mpr this


/-! ### Journal-write accounting -/

theorem logCut_records_length (env : Env) (now : ℕ) (node : String) (ent : ℚ)
    (s : Strategy) (r : CutResult) (l : Int) (h : env.historyEnabled = true) :
    (logCut env now node ent s r l).1.length = 1 := by
  simp [logCut, h]

theorem logCut_events_length (env : Env) (now : ℕ) (node : String) (ent : ℚ)
    (s : Strategy) (r : CutResult) (l : Int) (h : env.historyEnabled = true) :
    (logCut env now node ent s r l).2.length = if env.notifEnabled then 1 else 0 := by
  by_cases hb : env.notifEnabled <;> simp [logCut, h, hb]

theorem logCut_entropies (env : Env) (now : ℕ) (node : String) (ent : ℚ)
    (s : Strategy) (r : CutResult) (l : Int) (h : env.historyEnabled = true) :
    (logCut env now node ent s r l).1.map (·.entropy) = [ent] := by
  simp [logCut, h]

theorem executeStrategy_records_length (env : Env) (now : ℕ) (node : String)
    (np : NodePolicy) (s : Strategy) (h : env.historyEnabled = true) :
    (executeStrategy env now node np s).2.1.length = 1 := by
  unfold executeStrategy
  by_cases hf : findCutter s.action
  · simp only [hf, if_true]
    cases env.execCut s.action node <;> simp [logCut, h]
  · simp [hf, logCut, h]

theorem executeStrategy_events_length (env : Env) (now : ℕ) (node : String)
    (np : NodePolicy) (s : Strategy) (h : env.historyEnabled = true) :
    (executeStrategy env now node np s).2.2.length = if env.notifEnabled then 1 else 0 := by
  unfold executeStrategy
  by_cases hf : findCutter s.action
  · simp only [hf, if_true]
    cases env.execCut s.action node <;> by_cases hb : env.notifEnabled <;> simp [logCut, h, hb]
  · by_cases hb : env.notifEnabled <;> simp [hf, logCut, h, hb]

theorem executeStrategy_entropies (env : Env) (now : ℕ) (node : String)
    (np : NodePolicy) (s : Strategy) (h : env.historyEnabled = true) :
    (executeStrategy env now node np s).2.1.map (·.entropy)
      = [if findCutter s.action then s.threshold else 0] := by
  unfold executeStrategy
  by_cases hf : findCutter s.action
  · simp only [hf, if_true]
    cases env.execCut s.action node <;> simp [logCut, h]
  · simp [hf, logCut, h]

/-- One `ExecuteCut` admission takes exactly one of four shapes: a
pre-execution denial (unknown node, time window, no strategy match, rate
limit), a primary-only execution, a primary failure followed by its fallback,
or a primary failure followed by its escalation. -/
theorem executeCut_shape (env : Env) (pol : List (String × NodePolicy))
    (rl : RLState) (now : ℕ) (clock node : String) (e : ℚ) :
    (∃ s r, (ExecuteCut env pol rl now clock node e).trace = []
        ∧ (ExecuteCut env pol rl now clock node e).records = (logCut env now node e s r 0).1
        ∧ (ExecuteCut env pol rl now clock node e).events = (logCut env now node e s r 0).2)
    ∨ (∃ np s, GetNode pol node = some np ∧ SelectStrategy np e = some s
        ∧ (ExecuteCut env pol rl now clock node e).trace = [(Phase.primary, s)]
        ∧ (ExecuteCut env pol rl now clock node e).records
            = (executeStrategy env now node np s).2.1
        ∧ (ExecuteCut env pol rl now clock node e).events
            = (executeStrategy env now node np s).2.2
        ∧ (ExecuteCut env pol rl now clock node e).result = (executeStrategy env now node np s).1)
    ∨ (∃ np s fb, GetNode pol node = some np ∧ SelectStrategy np e = some s
        ∧ (executeStrategy env now node np s).1.success = false
        ∧ s.onFailure ≠ "" ∧ SelectStrategyByAction np s.onFailure = some fb
        ∧ (ExecuteCut env pol rl now clock node e).trace
            = [(Phase.primary, s), (Phase.fallback, fb)]
        ∧ (ExecuteCut env pol rl now clock node e).records
            = (executeStrategy env now node np s).2.1 ++ (executeStrategy env now node np fb).2.1
        ∧ (ExecuteCut env pol rl now clock node e).events
            = (executeStrategy env now node np s).2.2 ++ (executeStrategy env now node np fb).2.2
        ∧ (ExecuteCut env pol rl now clock node e).result = (executeStrategy env now node np fb).1)
    ∨ (∃ np s esc, GetNode pol node = some np ∧ SelectStrategy np e = some s
        ∧ (executeStrategy env now node np s).1.success = false
        ∧ (s.onFailure = "" ∨ SelectStrategyByAction np s.onFailure = none)
        ∧ s.critical = true ∧ GetEscalationStrategy np s.threshold = some esc
        ∧ (ExecuteCut env pol rl now clock node e).trace
            = [(Phase.primary, s), (Phase.escalation, esc)]
        ∧ (ExecuteCut env pol rl now clock node e).records
            = (executeStrategy env now node np s).2.1 ++ (executeStrategy env now node np esc).2.1
        ∧ (ExecuteCut env pol rl now clock node e).events
            = (executeStrategy env now node np s).2.2 ++ (executeStrategy env now node np esc).2.2
        ∧ (ExecuteCut env pol rl now clock node e).result
            = (executeStrategy env now node np esc).1) := by
  simp only [ExecuteCut]
  split
  · exact Or.inl ⟨emptyStrategy, _, rfl, rfl, rfl⟩
  · rename_i np hn
    split
    · exact Or.inl ⟨emptyStrategy, _, rfl, rfl, rfl⟩
    · rename_i htw
      split
      · exact Or.inl ⟨{ threshold := 0, action := "none" }, _, rfl, rfl, rfl⟩
      · rename_i s hsel
        split
        · rename_i hv
          split
          · rename_i hs
            exact Or.inr (Or.inl ⟨np, s, hn, hsel, rfl, rfl, rfl, rfl⟩)
          · rename_i hs
            split
            · rename_i fb hfb
              by_cases hof : s.onFailure = ""
              · simp [hof] at hfb
              · rw [if_pos hof] at hfb
                exact Or.inr (Or.inr (Or.inl ⟨np, s, fb, hn, hsel,
                  by simpa using hs, hof, hfb, rfl, rfl, rfl, rfl⟩))
            · rename_i hfb
              split
              · rename_i hc
                split
                · rename_i esc hesc
                  refine Or.inr (Or.inr (Or.inr ⟨np, s, esc, hn, hsel,
                    by simpa using hs, ?_, hc, hesc, rfl, rfl, rfl, rfl⟩))
                  by_cases hof : s.onFailure = ""
                  · exact Or.inl hof
                  · rw [if_pos hof] at hfb
                    exact Or.inr hfb
                · rename_i hesc
                  exact Or.inr (Or.inl ⟨np, s, hn, hsel, rfl, rfl, rfl, rfl⟩)
              · rename_i hc
                exact Or.inr (Or.inl ⟨np, s, hn, hsel, rfl, rfl, rfl, rfl⟩)
        · rename_i hv
          exact Or.inl ⟨s, _, rfl, rfl, rfl⟩

/-- C1 (amended): when the engine has a history manager, one admission writes
exactly one journal record per executed strategy and exactly one on each
pre-execution denial path — so an alert whose failed primary is followed by a
fallback or escalation yields two records, not one — and one notification
event is dispatched per journal write when a notification manager is present
(none otherwise). -/
theorem journal_writes_per_admission (env : Env) (pol : List (String × NodePolicy))
    (rl : RLState) (now : ℕ) (clock node : String) (e : ℚ)
    (h : env.historyEnabled = true) :
    (ExecuteCut env pol rl now clock node e).records.length
      = max 1 (ExecuteCut env pol rl now clock node e).trace.length
    ∧ (ExecuteCut env pol rl now clock node e).events.length
      = if env.notifEnabled then (ExecuteCut env pol rl now clock node e).records.length
        else 0 := by
  rcases executeCut_shape env pol rl now clock node e with
      ⟨s, r, ht, hr, he⟩
    | ⟨np, s, _, _, ht, hr, he, _⟩
    | ⟨np, s, fb, _, _, _, _, _, ht, hr, he, _⟩
    | ⟨np, s, esc, _, _, _, _, _, _, ht, hr, he, _⟩
  · rw [ht, hr, he]
    refine ⟨by simp [logCut, h], ?_⟩
    by_cases hb : env.notifEnabled <;> simp [logCut, h, hb]
  · rw [ht, hr, he]
    refine ⟨by simp [executeStrategy_records_length env now node np s h], ?_⟩
    by_cases hb : env.notifEnabled <;>
      simp [executeStrategy_records_length env now node np s h,
        executeStrategy_events_length env now node np s h, hb]
  · rw [ht, hr, he]
    refine ⟨by simp [executeStrategy_records_length env now node np _ h], ?_⟩
    by_cases hb : env.notifEnabled <;>
      simp [executeStrategy_records_length env now node np _ h,
        executeStrategy_events_length env now node np _ h, hb]
  · rw [ht, hr, he]
    refine ⟨by simp [executeStrategy_records_length env now node np _ h], ?_⟩
    by_cases hb : env.notifEnabled <;>
      simp [executeStrategy_records_length env now node np _ h,
        executeStrategy_events_length env now node np _ h, hb]

/-- C1 witness: a denial-free primary-only admission writes one record and one
event. -/
theorem journal_writes_per_admission_inst :
    (ExecuteCut envOk polAthena [] tEx "12:00" "athena" (mkRat 9 10)).records.length
      = max 1 (ExecuteCut envOk polAthena [] tEx "12:00" "athena" (mkRat 9 10)).trace.length
    ∧ (ExecuteCut envOk polAthena [] tEx "12:00" "athena" (mkRat 9 10)).events.length
      = if envOk.notifEnabled then
          (ExecuteCut envOk polAthena [] tEx "12:00" "athena" (mkRat 9 10)).records.length
        else 0 :=
  journal_writes_per_admission envOk polAthena [] tEx "12:00" "athena" (mkRat 9 10) rfl

/-- C1 counterexample: with a failing primary and an `on_failure` fallback, one
admitted alert writes two journal records, not one. -/
theorem fallback_admission_writes_two_records :
    runFallback.records.length = 2 ∧ ¬ runFallback.records.length = 1 := by
  constructor <;> decide

/-- C10: the `entropy` field of a journalled record equals the executed
strategy's threshold for every cut that reaches backend execution (and `0` on
the no-cutter-for-action branch), while the triggering alert's entropy is
persisted exactly on the pre-execution denial paths (unknown node, time
window, no strategy match, rate limit). -/
theorem record_entropy_provenance (env : Env) (pol : List (String × NodePolicy))
    (rl : RLState) (now : ℕ) (clock node : String) (e : ℚ)
    (h : env.historyEnabled = true) :
    (ExecuteCut env pol rl now clock node e).records.map (·.entropy)
      = if (ExecuteCut env pol rl now clock node e).trace = [] then [e]
        else (ExecuteCut env pol rl now clock node e).trace.map
          (fun ps => if findCutter ps.2.action then ps.2.threshold else 0) := by
  rcases executeCut_shape env pol rl now clock node e with
      ⟨s, r, ht, hr, _⟩
    | ⟨np, s, _, _, ht, hr, _, _⟩
    | ⟨np, s, fb, _, _, _, _, _, ht, hr, _, _⟩
    | ⟨np, s, esc, _, _, _, _, _, _, ht, hr, _, _⟩
  · rw [ht, hr, if_pos rfl]
    exact logCut_entropies env now node e _ _ _ h
  · rw [ht, hr, if_neg (by simp)]
    simpa using executeStrategy_entropies env now node np s h
  · rw [ht, hr, if_neg (by simp)]
    simp only [List.map_append, List.map_cons, List.map_nil]
    rw [executeStrategy_entropies env now node np s h,
      executeStrategy_entropies env now node np fb h]
    rfl
  · rw [ht, hr, if_neg (by simp)]
    simp only [List.map_append, List.map_cons, List.map_nil]
    rw [executeStrategy_entropies env now node np s h,
      executeStrategy_entropies env now node np esc h]
    rfl

/-- C10 witness: on the fallback run both journalled entropies are the
executed strategies' thresholds, not the alert's entropy. -/
theorem record_entropy_provenance_inst :
    runFallback.records.map (·.entropy)
      = if runFallback.trace = [] then [mkRat 9 10]
        else runFallback.trace.map
          (fun ps => if findCutter ps.2.action then ps.2.threshold else 0) :=
  record_entropy_provenance envFail polAthena [] tEx "12:00" "athena" (mkRat 9 10) rfl

/-- C2: a fallback executes only when the failed primary's `on_failure` names
a strategy of the same node's declared strategies, its result is what the
admission returns, and escalation then does not run; escalation executes only
after a failed critical primary to which no fallback was applied, at most once
per alert, with no further chaining (at most two strategies ever execute). -/
theorem fallback_escalation_discipline (env : Env) (pol : List (String × NodePolicy))
    (rl : RLState) (now : ℕ) (clock node : String) (e : ℚ) :
    (ExecuteCut env pol rl now clock node e).trace.length ≤ 2
    ∧ (∀ f, (Phase.fallback, f) ∈ (ExecuteCut env pol rl now clock node e).trace →
        ∃ np s, GetNode pol node = some np
          ∧ SelectStrategy np e = some s
          ∧ (executeStrategy env now node np s).1.success = false
          ∧ s.onFailure ≠ ""
          ∧ SelectStrategyByAction np s.onFailure = some f
          ∧ f ∈ np.strategies ∧ f.action = s.onFailure
          ∧ (ExecuteCut env pol rl now clock node e).trace
              = [(Phase.primary, s), (Phase.fallback, f)]
          ∧ (ExecuteCut env pol rl now clock node e).result
              = (executeStrategy env now node np f).1)
    ∧ (∀ g, (Phase.escalation, g) ∈ (ExecuteCut env pol rl now clock node e).trace →
        ∃ np s, GetNode pol node = some np
          ∧ SelectStrategy np e = some s
          ∧ (executeStrategy env now node np s).1.success = false
          ∧ s.critical = true
          ∧ (s.onFailure = "" ∨ SelectStrategyByAction np s.onFailure = none)
          ∧ GetEscalationStrategy np s.threshold = some g
          ∧ (ExecuteCut env pol rl now clock node e).trace
              = [(Phase.primary, s), (Phase.escalation, g)]
          ∧ (ExecuteCut env pol rl now clock node e).result
              = (executeStrategy env now node np g).1) := by
  rcases executeCut_shape env pol rl now clock node e with
      ⟨s, r, ht, _, _⟩
    | ⟨np, s, hn, hsel, ht, _, _, _⟩
    | ⟨np, s, fb, hn, hsel, hfail, hof, hfb, ht, _, _, hres⟩
    | ⟨np, s, esc, hn, hsel, hfail, hof, hc, hesc, ht, _, _, hres⟩
  · rw [ht]
    exact ⟨by simp, by simp, by simp⟩
  · rw [ht]
    exact ⟨by simp, by simp, by simp⟩
  · rw [ht]
    refine ⟨by simp, ?_, by simp⟩
    intro f hf
    have hffb : f = fb := by simpa using hf
    subst hffb
    have hmem : f ∈ np.strategies := List.mem_of_find?_eq_some hfb
    have hact : f.action = s.onFailure := by
      have := List.find?_some hfb
      simpa using this
    exact ⟨np, s, hn, hsel, hfail, hof, hfb, hmem, hact, rfl, hres⟩
  · rw [ht]
    refine ⟨by simp, by simp, ?_⟩
    intro g hg
    have hgesc : g = esc := by simpa using hg
    subst hgesc
    exact ⟨np, s, hn, hsel, hfail, hc, hof, hesc, rfl, hres⟩

/-! ### Rate limiter -/

theorem lookup_rlSet_self (m : RLState) (k : String) (v : RateLimitEntry) :
    (rlSet m k v).lookup k = some v := by
  induction m with
  | nil => simp [rlSet, List.lookup]
  | cons p t ih =>
      obtain ⟨k', v'⟩ := p
      by_cases hk : k = k'
      · subst hk; simp [rlSet, List.lookup]
      · have hkk : (k == k') = false := beq_eq_false_iff_ne.mpr hk
        simp [rlSet, hk, List.lookup, hkk, ih]

theorem admittedInWindow_cons (node : String) (w : ℕ) (st : Bool × RLState)
    (steps : List (Bool × RLState)) :
    admittedInWindow node w (st :: steps)
      = (if st.1 && decide ((st.2.lookup node).map RateLimitEntry.windowStart = some w)
          then 1 else 0) + admittedInWindow node w steps := by
  simp only [admittedInWindow, List.filter_cons]
  split <;> simp [Nat.add_comm]

theorem rlRun_window_bound_aux (node : String) (M W : ℤ) (hM : 1 ≤ M) (hW : 0 ≤ W) (w : ℕ) :
    ∀ (ts : List ℕ) (rl : RLState),
      (∀ entry, rl.lookup node = some entry → 1 ≤ entry.count ∧ entry.count ≤ M) →
      (admittedInWindow node w (rlRun node (some ⟨M, W⟩) rl ts) : ℤ)
        ≤ remainingCap node M w rl := by
  have hMne : M ≠ 0 := by omega
  intro ts
  induction ts with
  | nil =>
      intro rl hinv
      cases hl : rl.lookup node with
      | none => simp [rlRun, admittedInWindow, remainingCap, hl]; omega
      | some entry =>
          obtain ⟨h1, h2⟩ := hinv entry hl
          simp only [rlRun, admittedInWindow, List.filter_nil, List.length_nil, Nat.cast_zero,
            remainingCap, hl]
          split_ifs <;> omega
  | cons t ts ih =>
      intro rl hinv
      cases hl : rl.lookup node with
      | none =>
          have step : checkRateLimit rl node (some ⟨M, W⟩) t
              = (⟨true, W * nsPerMinute, none⟩, rlSet rl node ⟨1, t, some ⟨M, W⟩⟩) := by
            simp [checkRateLimit, hl, hMne]
          have hinv' : ∀ entry, (rlSet rl node ⟨1, t, some ⟨M, W⟩⟩).lookup node = some entry →
              1 ≤ entry.count ∧ entry.count ≤ M := by
            intro entry he
            rw [lookup_rlSet_self] at he
            cases he
            exact ⟨le_refl 1, hM⟩
          have hrest := ih (rlSet rl node ⟨1, t, some ⟨M, W⟩⟩) hinv'
          simp only [rlRun]
          rw [step, admittedInWindow_cons]
          simp only [lookup_rlSet_self, Option.map_some, Bool.true_and]
          by_cases hw : t = w
          · subst hw
            simp only [decide_eq_true_eq, if_pos rfl]
            have : remainingCap node M t (rlSet rl node ⟨1, t, some ⟨M, W⟩⟩) = M - 1 := by
              simp [remainingCap, lookup_rlSet_self]
            rw [this] at hrest
            have : remainingCap node M t rl = M := by simp [remainingCap, hl]
            rw [this]
            push_cast
            omega
          · rw [if_neg (by simpa using hw)]
            have hcap : remainingCap node M w (rlSet rl node ⟨1, t, some ⟨M, W⟩⟩) ≤ M := by
              simp only [remainingCap, lookup_rlSet_self]
              split_ifs <;> omega
            have : remainingCap node M w rl = M := by simp [remainingCap, hl]
            rw [this]
            push_cast
            omega
      | some entry =>
          obtain ⟨hc1, hcM⟩ := hinv entry hl
          by_cases helap : (t : ℤ) - (entry.windowStart : ℤ) > W * nsPerMinute
          · have hlt : entry.windowStart < t := by
              have hWge : (0:ℤ) ≤ W * nsPerMinute :=
                mul_nonneg hW (by norm_num [nsPerMinute])
              have := lt_of_le_of_lt hWge helap
              omega
            have step : checkRateLimit rl node (some ⟨M, W⟩) t
                = (⟨true, W * nsPerMinute, none⟩, rlSet rl node ⟨1, t, some ⟨M, W⟩⟩) := by
              simp [checkRateLimit, hl, hMne, helap]
            have hinv' : ∀ e₂, (rlSet rl node ⟨1, t, some ⟨M, W⟩⟩).lookup node = some e₂ →
                1 ≤ e₂.count ∧ e₂.count ≤ M := by
              intro e₂ he
              rw [lookup_rlSet_self] at he
              cases he
              exact ⟨le_refl 1, hM⟩
            have hrest := ih (rlSet rl node ⟨1, t, some ⟨M, W⟩⟩) hinv'
            simp only [rlRun]
            rw [step, admittedInWindow_cons]
            simp only [lookup_rlSet_self, Option.map_some, Bool.true_and]
            by_cases hw : t = w
            · subst hw
              simp only [decide_eq_true_eq, if_pos rfl]
              have hpost : remainingCap node M t (rlSet rl node ⟨1, t, some ⟨M, W⟩⟩) = M - 1 := by
                simp [remainingCap, lookup_rlSet_self]
              rw [hpost] at hrest
              have hpre : remainingCap node M t rl = M := by
                simp only [remainingCap, hl]
                rw [if_neg (by omega), if_neg (by omega)]
              rw [hpre]
              push_cast
              omega
            · rw [if_neg (by simpa using hw)]
              have hpost : remainingCap node M w (rlSet rl node ⟨1, t, some ⟨M, W⟩⟩) ≤
                  remainingCap node M w rl := by
                simp only [remainingCap, lookup_rlSet_self, hl]
                split_ifs <;> omega
              push_cast
              omega
          · by_cases hge : entry.count ≥ M
            · have step : checkRateLimit rl node (some ⟨M, W⟩) t
                  = (⟨false, (entry.windowStart : ℤ) + W * nsPerMinute - (t : ℤ),
                      some (rateLimitMsg M W)⟩, rl) := by
                simp [checkRateLimit, hl, hMne, helap, hge]
              have hrest := ih rl hinv
              simp only [rlRun]
              rw [step, admittedInWindow_cons]
              simpa using hrest
            · have step : checkRateLimit rl node (some ⟨M, W⟩) t
                  = (⟨true, W * nsPerMinute, none⟩,
                     rlSet rl node ⟨entry.count + 1, entry.windowStart, entry.limit⟩) := by
                simp [checkRateLimit, hl, hMne, helap, hge]
              have hinv' : ∀ e₂,
                  (rlSet rl node ⟨entry.count + 1, entry.windowStart, entry.limit⟩).lookup node
                    = some e₂ → 1 ≤ e₂.count ∧ e₂.count ≤ M := by
                intro e₂ he
                rw [lookup_rlSet_self] at he
                cases he
                refine ⟨?_, ?_⟩
                · show (1:ℤ) ≤ entry.count + 1
                  omega
                · show entry.count + 1 ≤ M
                  omega
              have hrest := ih _ hinv'
              simp only [rlRun]
              rw [step, admittedInWindow_cons]
              simp only [lookup_rlSet_self, Option.map_some, Bool.true_and]
              by_cases hw : entry.windowStart = w
              · subst hw
                simp only [decide_eq_true_eq, if_pos rfl]
                have hpost : remainingCap node M entry.windowStart
                    (rlSet rl node ⟨entry.count + 1, entry.windowStart, entry.limit⟩)
                      = M - (entry.count + 1) := by
                  simp [remainingCap, lookup_rlSet_self]
                rw [hpost] at hrest
                have hpre : remainingCap node M entry.windowStart rl = M - entry.count := by
                  simp [remainingCap, hl]
                rw [hpre]
                push_cast
                omega
              · rw [if_neg (by simpa using hw)]
                have hpost : remainingCap node M w
                    (rlSet rl node ⟨entry.count + 1, entry.windowStart, entry.limit⟩)
                      = remainingCap node M w rl := by
                  simp only [remainingCap, lookup_rlSet_self, hl]
                  split_ifs <;> omega
                rw [hpost] at hrest
                simpa using hrest

/-- C5: for a node with rate-limit descriptor (`max_cuts M`, `window W`
minutes), a check starts a new window with count 1 and admits when no entry
exists or more than `W` minutes elapsed since the window start; otherwise it
denies with "rate limit exceeded: M cuts per W minutes" once the count reached
`M`, and increments and admits below that — hence at most `M` admissions land
in any one window, and a rate-limit denial still writes one journal record
carrying the denial text. -/
theorem rate_limit_discipline (node : String) (M W : ℤ) (hM : 1 ≤ M) (hW : 0 ≤ W) :
    (∀ (rl : RLState) (now : ℕ), rl.lookup node = none →
      checkRateLimit rl node (some ⟨M, W⟩) now
        = (⟨true, W * nsPerMinute, none⟩, rlSet rl node ⟨1, now, some ⟨M, W⟩⟩))
    ∧ (∀ (rl : RLState) (now : ℕ) entry, rl.lookup node = some entry →
        (now : ℤ) - entry.windowStart > W * nsPerMinute →
        checkRateLimit rl node (some ⟨M, W⟩) now
          = (⟨true, W * nsPerMinute, none⟩, rlSet rl node ⟨1, now, some ⟨M, W⟩⟩))
    ∧ (∀ (rl : RLState) (now : ℕ) entry, rl.lookup node = some entry →
        ¬((now : ℤ) - entry.windowStart > W * nsPerMinute) → M ≤ entry.count →
        checkRateLimit rl node (some ⟨M, W⟩) now
          = (⟨false, (entry.windowStart : ℤ) + W * nsPerMinute - now,
              some (rateLimitMsg M W)⟩, rl))
    ∧ (∀ (rl : RLState) (now : ℕ) entry, rl.lookup node = some entry →
        ¬((now : ℤ) - entry.windowStart > W * nsPerMinute) → entry.count < M →
        checkRateLimit rl node (some ⟨M, W⟩) now
          = (⟨true, W * nsPerMinute, none⟩,
             rlSet rl node ⟨entry.count + 1, entry.windowStart, entry.limit⟩))
    ∧ (∀ (ts : List ℕ) (w : ℕ),
        (admittedInWindow node w (rlRun node (some ⟨M, W⟩) [] ts) : ℤ) ≤ M)
    ∧ (∀ (env : Env) (pol : List (String × NodePolicy)) (rl : RLState) (now : ℕ)
        (clock : String) (e : ℚ) np s, env.historyEnabled = true →
        GetNode pol node = some np → checkTimeWindows np clock = none →
        SelectStrategy np e = some s →
        (checkRateLimit rl node np.rateLimit now).1.allowed = false →
        (ExecuteCut env pol rl now clock node e).records.length = 1
        ∧ (ExecuteCut env pol rl now clock node e).records.map (·.error)
            = [((checkRateLimit rl node np.rateLimit now).1.error).getD ""]) := by
  have hMne : M ≠ 0 := by omega
  refine ⟨?_, ?_, ?_, ?_, ?_, ?_⟩
  · intro rl now hl
    simp [checkRateLimit, hl, hMne]
  · intro rl now entry hl helap
    simp [checkRateLimit, hl, hMne, helap]
  · intro rl now entry hl helap hge
    simp [checkRateLimit, hl, hMne, helap, hge]
  · intro rl now entry hl helap hlt
    have hge : ¬(entry.count ≥ M) := by omega
    simp [checkRateLimit, hl, hMne, helap, hge]
  · intro ts w
    have h := rlRun_window_bound_aux node M W hM hW w ts []
      (by intro entry he; simp [List.lookup] at he)
    simpa [remainingCap, List.lookup] using h
  · intro env pol rl now clock e np s h hn htw hsel hv
    simp only [ExecuteCut, hn, htw, hsel, hv, Bool.false_eq_true, if_false]
    constructor
    · simp [logCut, h]
    · simp [logCut, h]

/-- C5 witness: three same-window attempts under `max_cuts 2` admit at most
two. -/
theorem rate_limit_discipline_inst :
    (admittedInWindow "athena" 0 (rlRun "athena" (some ⟨2, 60⟩) [] [0, 1, 2]) : ℤ) ≤ 2 :=
  (rate_limit_discipline "athena" 2 60 (by norm_num) (by norm_num)).2.2.2.2.1 [0, 1, 2] 0

/-! ### HMAC verification -/

theorem splitAtEq_sound :
    ∀ {l p q : List Char}, splitAtEq l = some (p, q) →
      l = p ++ '=' :: q ∧ '=' ∉ p := by
  intro l
  induction l with
  | nil => intro p q h; simp [splitAtEq] at h
  | cons c cs ih =>
      intro p q h
      by_cases hc : c = '='
      · subst hc
        simp only [splitAtEq, if_pos rfl, Option.some.injEq, Prod.mk.injEq] at h
        obtain ⟨rfl, rfl⟩ := h
        exact ⟨rfl, by simp⟩
      · rw [splitAtEq, if_neg hc] at h
        cases hs : splitAtEq cs with
        | none => rw [hs] at h; simp at h
        | some pq =>
            obtain ⟨p', q'⟩ := pq
            rw [hs] at h
            simp only [Option.some.injEq, Prod.mk.injEq] at h
            obtain ⟨rfl, rfl⟩ := h
            obtain ⟨heq, hnot⟩ := ih hs
            refine ⟨by simp [heq], ?_⟩
            simp only [List.mem_cons, not_or]
            exact ⟨fun hce => hc hce.symm, hnot⟩

theorem splitAtEq_complete :
    ∀ {p : List Char} (q : List Char), '=' ∉ p →
      splitAtEq (p ++ '=' :: q) = some (p, q) := by
  intro p
  induction p with
  | nil => intro q _; simp [splitAtEq]
  | cons c cs ih =>
      intro q hp
      have hc : ¬ c = '=' := by
        intro hce
        exact hp (by simp [hce])
      have hcs : '=' ∉ cs := fun hm => hp (by simp [hm])
      simp only [List.cons_append, splitAtEq, if_neg hc, List.append_eq, ih q hcs]

/-- C6: HMAC verification accepts exactly the requests whose signature header
is `sha256=<hex>` with the hex payload decoding to the HMAC-SHA256 of the raw
body under the configured secret — except that an empty configured secret
accepts every request. -/
theorem hmac_verification_iff (hmacSha256 : List ℕ → List ℕ → List ℕ)
    (secret payload : List ℕ) (sig : String) :
    verifySignature hmacSha256 secret payload sig = true
      ↔ (secret = []
        ∨ ∃ hex : List Char, sig.data = "sha256=".data ++ hex
            ∧ hexDecode hex = some (hmacSha256 secret payload)) := by
  by_cases hsec : secret = []
  · simp [verifySignature, hsec]
  · rw [verifySignature, if_neg hsec]
    split
    · rename_i hsp
      constructor
      · intro h; simp at h
      · rintro (h | ⟨hex, hsig, _⟩)
        · exact absurd h hsec
        · have hsig' : sig.data = "sha256".data ++ '=' :: hex := by rw [hsig]; rfl
          rw [hsig', splitAtEq_complete hex (by decide)] at hsp
          simp at hsp
    · rename_i p₀ p₁ hsp
      obtain ⟨heq, hnm⟩ := splitAtEq_sound hsp
      split
      · rename_i hp₀
        split
        · rename_i hdec
          constructor
          · intro h; simp at h
          · rintro (h | ⟨hex, hsig, hdec'⟩)
            · exact absurd h hsec
            · have hsig' : sig.data = "sha256".data ++ '=' :: hex := by rw [hsig]; rfl
              rw [hsig', splitAtEq_complete hex (by decide)] at hsp
              simp only [Option.some.injEq, Prod.mk.injEq] at hsp
              obtain ⟨-, rfl⟩ := hsp
              rw [hdec] at hdec'
              simp at hdec'
        · rename_i mac hdec
          constructor
          · intro h
            have hmac : hmacSha256 secret payload = mac := of_decide_eq_true h
            refine Or.inr ⟨p₁, ?_, by rw [hdec, hmac]⟩
            rw [heq, hp₀]
            rfl
          · rintro (h | ⟨hex, hsig, hdec'⟩)
            · exact absurd h hsec
            · have hsig' : sig.data = "sha256".data ++ '=' :: hex := by rw [hsig]; rfl
              rw [hsig', splitAtEq_complete hex (by decide)] at hsp
              simp only [Option.some.injEq, Prod.mk.injEq] at hsp
              obtain ⟨-, rfl⟩ := hsp
              rw [hdec] at hdec'
              simp only [Option.some.injEq] at hdec'
              simp [hdec']
      · rename_i hp₀
        constructor
        · intro h; simp at h
        · rintro (h | ⟨hex, hsig, _⟩)
          · exact absurd h hsec
          · have hsig' : sig.data = "sha256".data ++ '=' :: hex := by rw [hsig]; rfl
            rw [hsig', splitAtEq_complete hex (by decide)] at hsp
            simp only [Option.some.injEq, Prod.mk.injEq] at hsp
            exact absurd hsp.1.symm hp₀

/-! ### MTTR -/

theorem mttrLoop_eq (l : List CutRecord) :
    mttrLoop l
      = ((((l.zip l.tail).filter (fun p => p.1.node == p.2.node)).map
          (fun p => p.2.timestamp - p.1.timestamp)).sum,
         ((l.zip l.tail).filter (fun p => p.1.node == p.2.node)).length) := by
  induction l with
  | nil => rfl
  | cons a l ih =>
      cases l with
      | nil => rfl
      | cons b rest =>
          simp only [mttrLoop, ih, List.tail_cons, List.zip_cons_cons, List.filter_cons]
          by_cases hn : a.node == b.node
          · simp [hn, Nat.add_comm]
          · simp [hn]

/-- C7 (amended): the MTTR computation considers successful cuts only, sorts
them globally by timestamp, and averages the gaps between *adjacent* entries
of that one sorted list that share a node (not per-node consecutive pairs); it
returns `none` exactly when fewer than two successful cuts exist or no
adjacent same-node pair exists in the sorted list. -/
theorem calculateMTTR_adjacent_pairs (cuts : List CutRecord) :
    calculateMTTR cuts = adjacentSameNodeMTTR cuts
    ∧ (calculateMTTR cuts = none ↔
        (cuts.filter (·.success)).length < 2
        ∨ ((((cuts.filter (·.success)).insertionSort recordTimeLE).zip
            ((cuts.filter (·.success)).insertionSort recordTimeLE).tail).filter
            (fun p => p.1.node == p.2.node)) = []) := by
  have hle := mttrLoop_eq ((cuts.filter (·.success)).insertionSort recordTimeLE)
  constructor
  · unfold calculateMTTR adjacentSameNodeMTTR
    by_cases h2 : (cuts.filter (·.success)).length < 2
    · simp [h2]
    · simp only [h2, if_false, hle, List.length_map]
  · unfold calculateMTTR
    by_cases h2 : (cuts.filter (·.success)).length < 2
    · simp [h2]
    · simp only [h2, if_false, hle, false_or]
      split_ifs with hz
      · simp [List.length_eq_zero.mp hz]
      · constructor
        · intro h; simp at h
        · intro heq
          exact absurd (by rw [heq]; rfl) hz

/-- C7 counterexample: on interleaved successful cuts `a`@0, `b`@5, `a`@7,
`a`@20 the code averages only the adjacent same-node gap 13, while the
per-node grouping of the claim averages the gaps 7 and 13 to 10. -/
theorem calculateMTTR_not_grouped :
    calculateMTTR mttrEx = some 13 ∧ groupedMTTR mttrEx = some 10
    ∧ ¬ calculateMTTR mttrEx = groupedMTTR mttrEx :=
  ⟨by decide, by decide, by decide⟩

/-! ### Journal id uniqueness -/

theorem decimalDigits_ne_nil (fuel n : ℕ) (h : 0 < fuel) : decimalDigits fuel n ≠ [] := by
  cases fuel with
  | zero => omega
  | succ f =>
      rw [decimalDigits]
      split <;> simp

theorem decimalDigits_lt (fuel n : ℕ) : ∀ d ∈ decimalDigits fuel n, d < 10 := by
  induction fuel generalizing n with
  | zero => simp [decimalDigits]
  | succ f ih =>
      intro d hd
      rw [decimalDigits] at hd
      split at hd
      · rename_i hn
        simp at hd
        omega
      · rcases List.mem_cons.mp hd with rfl | hd
        · exact Nat.mod_lt _ (by norm_num)
        · exact ih _ d hd

theorem decimalDigits_inj :
    ∀ (f₁ : ℕ) (n₁ : ℕ) (f₂ n₂ : ℕ), n₁ < 10 ^ f₁ → n₂ < 10 ^ f₂ →
      decimalDigits f₁ n₁ = decimalDigits f₂ n₂ → n₁ = n₂ := by
  intro f₁
  induction f₁ with
  | zero =>
      intro n₁ f₂ n₂ h₁ h₂ h
      have hn₁ : n₁ = 0 := by simpa using h₁
      cases f₂ with
      | zero =>
          have hn₂ : n₂ = 0 := by simpa using h₂
          omega
      | succ g =>
          exact absurd h.symm (decimalDigits_ne_nil _ _ (Nat.succ_pos g))
  | succ g ih =>
      intro n₁ f₂ n₂ h₁ h₂ h
      cases f₂ with
      | zero =>
          have hn₂ : n₂ = 0 := by simpa using h₂
          exact absurd h (decimalDigits_ne_nil _ _ (Nat.succ_pos g))
      | succ g₂ =>
          rw [decimalDigits, decimalDigits] at h
          by_cases hs₁ : n₁ < 10 <;> by_cases hs₂ : n₂ < 10
          · rw [if_pos hs₁, if_pos hs₂] at h
            simpa using h
          · rw [if_pos hs₁, if_neg hs₂] at h
            simp only [List.cons.injEq] at h
            obtain ⟨-, htail⟩ := h
            cases g₂ with
            | zero =>
                have : n₂ < 10 := by simpa [pow_succ] using h₂
                omega
            | succ g₃ =>
                exact absurd htail.symm (decimalDigits_ne_nil _ _ (Nat.succ_pos g₃))
          · rw [if_neg hs₁, if_pos hs₂] at h
            simp only [List.cons.injEq] at h
            obtain ⟨-, htail⟩ := h
            cases g with
            | zero =>
                have : n₁ < 10 := by simpa [pow_succ] using h₁
                omega
            | succ g₃ =>
                exact absurd htail (decimalDigits_ne_nil _ _ (Nat.succ_pos g₃))
          · rw [if_neg hs₁, if_neg hs₂] at h
            simp only [List.cons.injEq] at h
            obtain ⟨hhead, htail⟩ := h
            have hb₁ : n₁ / 10 < 10 ^ g :=
              Nat.div_lt_of_lt_mul (by rw [pow_succ] at h₁; omega)
            have hb₂ : n₂ / 10 < 10 ^ g₂ :=
              Nat.div_lt_of_lt_mul (by rw [pow_succ] at h₂; omega)
            have hdiv := ih (n₁ / 10) g₂ (n₂ / 10) hb₁ hb₂ htail
            omega

theorem digitChar_inj_lt : ∀ d₁ < 10, ∀ d₂ < 10, Nat.digitChar d₁ = Nat.digitChar d₂ → d₁ = d₂ := by
  decide

theorem digitChar_ne_underscore : ∀ d < 10, Nat.digitChar d ≠ '_' := by decide

theorem map_digitChar_inj :
    ∀ (l₁ l₂ : List ℕ), (∀ d ∈ l₁, d < 10) → (∀ d ∈ l₂, d < 10) →
      l₁.map Nat.digitChar = l₂.map Nat.digitChar → l₁ = l₂ := by
  intro l₁
  induction l₁ with
  | nil =>
      intro l₂ _ _ h
      cases l₂ with
      | nil => rfl
      | cons b t => simp at h
  | cons a t ih =>
      intro l₂ h₁ h₂ h
      cases l₂ with
      | nil => simp at h
      | cons b t₂ =>
          simp only [List.map_cons, List.cons.injEq] at h
          have ha : a = b := digitChar_inj_lt a (h₁ a (by simp)) b (h₂ b (by simp)) h.1
          rw [ha, ih t₂ (fun d hd => h₁ d (by simp [hd])) (fun d hd => h₂ d (by simp [hd])) h.2]

theorem natChars_inj {n₁ n₂ : ℕ} (h₁ : n₁ < 10 ^ 20) (h₂ : n₂ < 10 ^ 20)
    (h : natChars n₁ = natChars n₂) : n₁ = n₂ := by
  unfold natChars at h
  have hlist : (decimalDigits 20 n₁).reverse = (decimalDigits 20 n₂).reverse :=
    map_digitChar_inj _ _
      (fun d hd => decimalDigits_lt 20 n₁ d (List.mem_reverse.mp hd))
      (fun d hd => decimalDigits_lt 20 n₂ d (List.mem_reverse.mp hd)) h
  exact decimalDigits_inj 20 n₁ 20 n₂ h₁ h₂ (List.reverse_injective hlist)

theorem underscore_not_mem_natChars (n : ℕ) : '_' ∉ natChars n := by
  unfold natChars
  intro hmem
  simp only [List.mem_map, List.mem_reverse] at hmem
  obtain ⟨d, hd, heq⟩ := hmem
  exact digitChar_ne_underscore d (decimalDigits_lt 20 n d hd) heq

theorem append_underscore_inj :
    ∀ (a b x y : List Char), '_' ∉ a → '_' ∉ b →
      a ++ '_' :: x = b ++ '_' :: y → a = b ∧ x = y := by
  intro a
  induction a with
  | nil =>
      intro b x y _ hb h
      cases b with
      | nil => simpa using h
      | cons c cs =>
          simp only [List.nil_append, List.cons_append, List.cons.injEq] at h
          exact absurd (by simp [← h.1]) hb
  | cons c cs ih =>
      intro b x y ha hb h
      cases b with
      | nil =>
          simp only [List.cons_append, List.nil_append, List.cons.injEq] at h
          exact absurd (by simp [h.1]) ha
      | cons d ds =>
          simp only [List.cons_append, List.cons.injEq] at h
          obtain ⟨rfl, h2⟩ := h
          have hcs : '_' ∉ cs := fun hm => ha (by simp [hm])
          have hds : '_' ∉ ds := fun hm => hb (by simp [hm])
          obtain ⟨hb1, hb2⟩ := ih ds x y hcs hds h2
          exact ⟨by rw [hb1], hb2⟩

/-- C9 (amended): journal ids collide exactly up to (unix second, node): two
ids (for int64-representable seconds) are equal iff they carry the same unix
second and the same node, and likewise for the save file names — so two
records for the same node written within one unix second share an id and the
later save overwrites the earlier file, which serial admission alone does not
prevent. -/
theorem cut_id_collisions (s₁ s₂ : ℕ) (n₁ n₂ : String)
    (h₁ : s₁ < 10 ^ 20) (h₂ : s₂ < 10 ^ 20) :
    (cutID s₁ n₁ = cutID s₂ n₂ ↔ s₁ = s₂ ∧ n₁ = n₂)
    ∧ (saveFileName (cutID s₁ n₁) = saveFileName (cutID s₂ n₂) ↔ s₁ = s₂ ∧ n₁ = n₂) := by
  have main : cutID s₁ n₁ = cutID s₂ n₂ ↔ s₁ = s₂ ∧ n₁ = n₂ := by
    constructor
    · intro h
      have hdata := congrArg String.data h
      simp only [cutID] at hdata
      rw [List.append_assoc, List.append_assoc] at hdata
      have hcancel := List.append_cancel_left hdata
      obtain ⟨hnum, hnode⟩ := append_underscore_inj _ _ _ _
        (underscore_not_mem_natChars s₁) (underscore_not_mem_natChars s₂) hcancel
      exact ⟨natChars_inj h₁ h₂ hnum, String.ext (by simpa using hnode)⟩
    · rintro ⟨rfl, rfl⟩
      rfl
  refine ⟨main, ?_, ?_⟩
  · intro h
    have hdata := congrArg String.data h
    simp only [saveFileName] at hdata
    exact main.mp (String.ext (List.append_cancel_right hdata))
  · rintro ⟨rfl, rfl⟩
    rfl

/-- C9 counterexample: one serially admitted alert whose failed primary is
followed by its fallback writes two distinct records in the same second for
the same node; they share one id. -/
theorem cut_id_collision_run :
    runFallback.records.map (·.id)
      = [cutID 1700000005 "athena", cutID 1700000005 "athena"]
    ∧ ¬ (runFallback.records.map (·.id)).Nodup
    ∧ runFallback.records.Nodup :=
  ⟨by decide, by decide, by decide⟩

/-- C9 witness: ids of the same node at distinct seconds are distinct. -/
theorem cut_id_collisions_inst :
    (cutID 1700000005 "athena" = cutID 1700000006 "athena"
      ↔ (1700000005 : ℕ) = 1700000006 ∧ ("athena" : String) = "athena") :=
  (cut_id_collisions 1700000005 1700000006 "athena" "athena" (by norm_num) (by norm_num)).1

/-! ### Correlation -/

theorem mem_cutsInWindow {records : List CutRecord} {node : String} {window : ℤ} {now : ℕ}
    {r : CutRecord} (hr : r ∈ records) (hnode : r.node = node)
    (hwin : (now : ℤ) - window < r.timestamp) :
    (⟨r.id, r.timestamp, r.action, r.success⟩ : CutReference)
      ∈ (((ListCutsByNode records node).map
          (fun r => (⟨r.id, r.timestamp, r.action, r.success⟩ : CutReference))).filter
          (fun c => decide ((now : ℤ) - window < c.timestamp))) := by
  refine List.mem_filter.mpr ⟨?_, by simpa using hwin⟩
  refine List.mem_map.mpr ⟨r, ?_, rfl⟩
  refine List.mem_filter.mpr ⟨?_, by simp [hnode]⟩
  exact (List.mem_insertionSort recordTimeGE).mpr hr

theorem cutsInWindow_sorted (records : List CutRecord) (node : String) (window : ℤ)
    (now : ℕ) :
    (((ListCutsByNode records node).map
        (fun r => (⟨r.id, r.timestamp, r.action, r.success⟩ : CutReference))).filter
        (fun c => decide ((now : ℤ) - window < c.timestamp))).Pairwise
      (fun a b : CutReference => b.timestamp ≤ a.timestamp) := by
  have h₁ : (ListCuts records).Pairwise recordTimeGE :=
    List.sorted_insertionSort recordTimeGE records
  have h₂ : (ListCutsByNode records node).Pairwise recordTimeGE :=
    List.Pairwise.sublist (List.filter_sublist _) h₁
  have h₃ : ((ListCutsByNode records node).map
      (fun r => (⟨r.id, r.timestamp, r.action, r.success⟩ : CutReference))).Pairwise
      (fun a b : CutReference => b.timestamp ≤ a.timestamp) := by
    rw [List.pairwise_map]
    exact h₂.imp (fun h => h)
  exact List.Pairwise.sublist (List.filter_sublist _) h₃

/-- C8 (amended): for every failed finding of the target node with a parseable
timestamp, the correlator pairs it with the *latest* journal cut in the
window — the cut list arrives newest-first from `ListCuts`, and the scan takes
the first cut whose timestamp is on-or-after the finding and at most `window`
later — recording the time delta and `resolved = cut.success`; findings with
unparseable timestamps are skipped, and a finding is paired whenever any
matching cut exists. -/
theorem correlation_matches_latest (records : List CutRecord)
    (findings : List ClothoFinding) (node : String) (window : ℤ) (now : ℕ) :
    (∀ corr ∈ (getCorrelation records findings node window now).remediated,
      ∃ t, corr.finding.timestamp = some t
        ∧ corr.timeDelta = (corr.cut.timestamp : ℤ) - t
        ∧ 0 ≤ corr.timeDelta ∧ corr.timeDelta ≤ window
        ∧ (now : ℤ) - window < corr.cut.timestamp
        ∧ corr.resolved = corr.cut.success
        ∧ (∃ r ∈ records, r.node = node
            ∧ corr.cut = ⟨r.id, r.timestamp, r.action, r.success⟩)
        ∧ ∀ r ∈ records, r.node = node → (now : ℤ) - window < r.timestamp →
            0 ≤ (r.timestamp : ℤ) - t → (r.timestamp : ℤ) - t ≤ window →
            r.timestamp ≤ corr.cut.timestamp)
    ∧ (∀ f ∈ (getCorrelation records findings node window now).findings,
        ∀ t, f.timestamp = some t →
        (∃ r ∈ records, r.node = node ∧ (now : ℤ) - window < r.timestamp
          ∧ 0 ≤ (r.timestamp : ℤ) - t ∧ (r.timestamp : ℤ) - t ≤ window) →
        ∃ corr ∈ (getCorrelation records findings node window now).remediated,
          corr.finding = f) := by
  constructor
  · intro corr hcorr
    simp only [getCorrelation, Correlate] at hcorr
    obtain ⟨f, hf, hg⟩ := List.mem_filterMap.mp hcorr
    split at hg
    · simp at hg
    · rename_i t ht
      split at hg
      · simp at hg
      · rename_i cut hm
        simp only [Option.some.injEq] at hg
        subst hg
        have hpred := List.find?_some hm
        simp only [decide_eq_true_eq] at hpred
        have hmemw := List.mem_of_find?_eq_some hm
        have hwin : (now : ℤ) - window < cut.timestamp := by
          have := (List.mem_filter.mp hmemw).2
          simpa using this
        have horig : ∃ r ∈ records, r.node = node
            ∧ cut = ⟨r.id, r.timestamp, r.action, r.success⟩ := by
          have hmem₂ := (List.mem_filter.mp hmemw).1
          obtain ⟨r, hr, hre⟩ := List.mem_map.mp hmem₂
          have hrf := List.mem_filter.mp hr
          refine ⟨r, (List.mem_insertionSort recordTimeGE).mp hrf.1, ?_, hre.symm⟩
          simpa using hrf.2
        refine ⟨t, ht, rfl, hpred.1, hpred.2, hwin, rfl, horig, ?_⟩
        intro r hr hnode hrwin h0 hw
        have hbest := find?_sorted_best
          (cutsInWindow_sorted records node window now) hm
          ⟨r.id, r.timestamp, r.action, r.success⟩
          (mem_cutsInWindow hr hnode hrwin)
          (by simp only [decide_eq_true_eq]; exact ⟨h0, hw⟩)
        rcases hbest with heq | hle
        · rw [← heq]
        · exact hle
  · intro f hf t ht hex
    simp only [getCorrelation, Correlate] at hf ⊢
    obtain ⟨r, hr, hnode, hrwin, h0, hw⟩ := hex
    have hsome : (correlateMatch
        ((((ListCutsByNode records node).map
          (fun r => (⟨r.id, r.timestamp, r.action, r.success⟩ : CutReference))).filter
          (fun c => decide ((now : ℤ) - window < c.timestamp)))) t window).isSome := by
      refine List.find?_isSome.mpr ⟨⟨r.id, r.timestamp, r.action, r.success⟩,
        mem_cutsInWindow hr hnode hrwin, ?_⟩
      simp only [decide_eq_true_eq]
      exact ⟨h0, hw⟩
    obtain ⟨cut, hm⟩ := Option.isSome_iff_exists.mp hsome
    refine ⟨⟨f, cut, (cut.timestamp : ℤ) - t, cut.success⟩, ?_, rfl⟩
    refine List.mem_filterMap.mpr ⟨f, hf, ?_⟩
    rw [ht]
    simp [hm]

/-- C8 counterexample: with a finding at 0 and in-window cuts at 10 (success)
and 20 (failure), the correlator pairs the finding with the cut at 20 —
delta 20, unresolved — not with the earliest on-or-after cut at 10. -/
theorem correlation_matches_latest_cex :
    ((getCorrelation corrRecords [findingEx] "athena" 100 25).remediated.map
      (fun c => (c.cut.id, c.timeDelta, c.resolved))) = [("cutB", (20 : ℤ), false)]
    ∧ corrRecords.map (fun r => (r.id, r.node, r.timestamp, r.success))
        = [("cutA", "athena", 10, true), ("cutB", "athena", 20, false)] :=
  ⟨by decide, by decide⟩

end Atropos
